import Mathlib

/-!
Verification development for the durable delivery core of `bot.py`:
a file-backed FIFO queue (`enqueue_event`, `queue_status`, `flush_queue_once`,
`send_or_queue`), the delivery client (`post_to_sheets`), the background
flush job (`flush_job`), and the user-facing score handlers (`handle_text`,
`handle_button`).

The queue file is modelled as a list of lines (`List String`); one event is
serialized per line by a codec (the JSON encoder/decoder pair is an external
library, abstracted as `Codec` with `Codec.Lawful` stating the round-trip
facts the real `json.dumps`/`json.loads` pair satisfies).  Delivery outcomes
of the HTTP calls made during a flush are supplied by an oracle
`g : Nat → E → Bool` giving the truthiness of `res.get("ok")` for the i-th
attempt of the flush; a deterministic per-event outcome is the special case
`fun _ e => f e`.
-/

namespace BrownBot

/-- Model of Python's `str.strip()`: drop whitespace from both ends. -/
def pyStrip (s : String) : String :=
  String.mk (((s.data.dropWhile Char.isWhitespace).reverse.dropWhile Char.isWhitespace).reverse)

/-- Serialization of events to queue-file lines, abstracting the JSON codec
(`json.dumps` / `json.loads`).  `loads` returns `none` on a malformed line. -/
structure Codec (E : Type) where
  dumps : E → String
  loads : String → Option E

/-- The round-trip facts the real JSON codec satisfies on event payloads:
a dumped line has no surrounding whitespace, is non-blank, and parses back
to the event it came from. -/
def Codec.Lawful {E : Type} (c : Codec E) : Prop :=
  ∀ e : E, pyStrip (c.dumps e) = c.dumps e ∧ (c.dumps e).data ≠ [] ∧ c.loads (c.dumps e) = some e

/-- The shared parse phase of `flush_queue_once` and `queue_status`
(bot.py 239-248 and 203-211): strip each line, skip blank lines, parse,
and silently skip lines that fail to parse. -/
def readItems {E : Type} (c : Codec E) (lines : List String) : List E :=
  lines.filterMap fun ln =>
    if (pyStrip ln).data = [] then none else c.loads (pyStrip ln)

/-- Model of `enqueue_event` (bot.py 186-195): append one serialized event line at the
tail of the queue file. -/
def enqueue_event {E : Type} (c : Codec E) (e : E) (file : List String) : List String :=
  file ++ [c.dumps e]

/-- Model of `queue_status` (bot.py 198-217): parse the file and report the count of
pending events and the timestamp of the oldest one (`ts` extracts the
`timestamp` field of a parsed event, `none` when absent). -/
def queue_status {E : Type} (c : Codec E) (ts : E → Option String) (lines : List String) :
    Nat × Option String :=
  let items := readItems c lines
  (items.length, match items with | [] => none | it :: _ => ts it)

/-- Model of Python's `list.index`: index of the first occurrence. -/
def pyIndex {E : Type} [DecidableEq E] (x : E) : List E → Nat
  | [] => 0
  | a :: l => if a = x then 0 else pyIndex x l + 1

/-- The delivery loop of `flush_queue_once` (bot.py 253-264).  `all` is the
full parsed `items` list (the Python loop consults it for `items.index` and
the tail slice), `i` the number of successes so far.  Returns
`(sent, remaining, attempts)`: on a failed attempt the loop keeps the failing
payload and `items[items.index(payload)+1:]` and breaks. -/
def flushGo {E : Type} [DecidableEq E] (g : Nat → E → Bool) (all : List E) :
    Nat → List E → Nat × List E × List E
  | i, [] => (i, [], [])
  | i, p :: rest =>
    if g i p then
      let r := flushGo g all (i + 1) rest
      (r.1, r.2.1, p :: r.2.2)
    else
      (i, p :: all.drop (pyIndex p all + 1), [p])

/-- Result of one `flush_queue_once` call: the returned `sent`/`left`
counters, the sequence of events on which a delivery attempt was made
(in order), and the queue-file content after the call. -/
structure FlushOut (E : Type) where
  sent : Nat
  left : Nat
  attempts : List E
  file : List String
deriving DecidableEq

/-- Model of `flush_queue_once` (bot.py 228-269): parse the file; if nothing parsed,
return `{sent:0, left:0}` without touching the file; otherwise run the
delivery loop and rewrite the file with the serialized remainder
(`_rewrite_queue`, bot.py 272-275). -/
def flush_queue_once {E : Type} [DecidableEq E] (c : Codec E) (g : Nat → E → Bool)
    (lines : List String) : FlushOut E :=
  let items := readItems c lines
  if items.isEmpty then ⟨0, 0, [], lines⟩
  else
    let r := flushGo g items 0 items
    ⟨r.1, r.2.1.length, r.2.2, r.2.1.map c.dumps⟩

/-- Result of one `send_or_queue` call: the returned `ok`/`queued` flags, the
events attempted over the wire (in order), and the final file content. -/
structure SubmitOut (E : Type) where
  ok : Bool
  queued : Bool
  attempts : List E
  file : List String
deriving DecidableEq

/-- Model of `send_or_queue` (bot.py 278-293): flush, then one direct delivery of the
new event (`direct` is the truthiness of its `res.get("ok")`); on success
flush again and report delivered, otherwise enqueue the event and report
queued.  `g1`/`g2` are the outcome oracles of the two flush calls. -/
def send_or_queue {E : Type} [DecidableEq E] (c : Codec E) (g1 g2 : Nat → E → Bool)
    (direct : Bool) (ev : E) (file : List String) : SubmitOut E :=
  let o1 := flush_queue_once c g1 file
  if direct then
    let o2 := flush_queue_once c g2 o1.file
    ⟨true, false, o1.attempts ++ [ev] ++ o2.attempts, o2.file⟩
  else
    ⟨false, true, o1.attempts ++ [ev], enqueue_event c ev o1.file⟩

/-- The queue-file content after one `flush_queue_once` call under the
deterministic per-event delivery outcome `f`. -/
def flushFile {E : Type} [DecidableEq E] (c : Codec E) (f : E → Bool) (lines : List String) :
    List String :=
  (flush_queue_once c (fun _ e => f e) lines).file

/-- The queue-file content after `n` successive `flush_queue_once` calls
with no appends in between. -/
def flushIterate {E : Type} [DecidableEq E] (c : Codec E) (f : E → Bool) :
    Nat → List String → List String
  | 0, lines => lines
  | n + 1, lines => flushIterate c f n (flushFile c f lines)

/-- One operation against the queue store: a producer append or a flush with
its per-attempt outcome oracle. -/
inductive QOp (E : Type) where
  | append (e : E)
  | flush (g : Nat → E → Bool)

/-- Run a sequence of queue operations against a starting file content. -/
def execOps {E : Type} [DecidableEq E] (c : Codec E) : List (QOp E) → List String → List String
  | [], file => file
  | QOp.append e :: ops, file => execOps c ops (enqueue_event c e file)
  | QOp.flush g :: ops, file => execOps c ops (flush_queue_once c g file).file

/-- Number of `append` operations for the event value `e` in a trace. -/
def appendCount {E : Type} [DecidableEq E] (e : E) : List (QOp E) → Nat
  | [] => 0
  | QOp.append a :: ops => (if a = e then 1 else 0) + appendCount e ops
  | QOp.flush _ :: ops => appendCount e ops

/-- The value `post_to_sheets` returns, abstracted to the two fields the rest
of the program reads: the truthiness of `.get("ok")` and `.get("error")`. -/
structure SheetsResp where
  ok : Bool
  error : Option String
deriving DecidableEq

/-- What the HTTP layer hands back for one `requests.post` call: a transport
failure (connect/timeout/DNS), or a response with a status code and the
parse result of its body (`none` = `r.json()` raises). -/
inductive HttpResult where
  | transportFailure
  | response (status : Nat) (body : Option SheetsResp)
deriving DecidableEq

/-- Model of `post_to_sheets` (bot.py 138-156): `requests.post` inside `try`, then
`r.raise_for_status()` (raises `HTTPError ⊆ RequestException` for any status
in 400..599) — so both transport failures and 4xx/5xx statuses land in the
`except requests.RequestException` arm returning
`{"ok": False, "error": "network"}`; afterwards `r.json()` failure yields
`{"ok": False, "error": "bad_json_response"}`, otherwise the parsed body is
returned as-is. -/
def post_to_sheets (r : HttpResult) : SheetsResp :=
  match r with
  | .transportFailure => ⟨false, some "network"⟩
  | .response status body =>
    if 400 ≤ status ∧ status < 600 then ⟨false, some "network"⟩
    else
      match body with
      | none => ⟨false, some "bad_json_response"⟩
      | some j => j

/-- A log line emitted by `flush_job`. -/
inductive JobLogEntry where
  | flushedInfo (sent left : Nat)
  | failedException (msg : String)
deriving DecidableEq

/-- Model of `flush_job` (bot.py 359-365): run `flush_queue_once` (its result or the
exception it raised is the `Except` input), log an info line when something
was sent; any exception is caught, logged and swallowed — the job itself
returns normally (an `Except.error` result would model a propagated
exception). -/
def flush_job (r : Except String (Nat × Nat)) : Except String (Option JobLogEntry) :=
  match r with
  | .ok st => .ok (if st.1 ≠ 0 then some (.flushedInfo st.1 st.2) else none)
  | .error m => .ok (some (.failedException m))

/-- Interval of the repeating `flush_job` registration (bot.py 631-636). -/
def flushJobInterval : Nat := 300

/-- First-run delay of the repeating `flush_job` registration (bot.py 634). -/
def flushJobFirstDelay : Nat := 30

/-- Character tables abstracting Python's Unicode string semantics: the
whitespace set removed by `str.strip`, the per-character classification of
`str.isdigit` (true also on Numeric_Type=Digit characters such as the
superscript digits), and the decimal value `int()` assigns to a character —
`none` when `int()` raises `ValueError` on it, which happens exactly on
`isdigit`-true characters that are not decimal digits. -/
structure PyUnicode where
  isSpace : Char → Bool
  isdigitChar : Char → Bool
  decimalVal : Char → Option Nat

/-- Model of Python's `str.strip()` on arbitrary message text: drop
characters of the Unicode whitespace set from both ends. -/
def pyStripU (u : PyUnicode) (s : String) : String :=
  String.mk (((s.data.dropWhile u.isSpace).reverse.dropWhile u.isSpace).reverse)

/-- Model of Python's `str.isdigit`: non-empty and every character passes
the per-character digit classification. -/
def pyIsDigit (u : PyUnicode) (s : String) : Bool :=
  !s.data.isEmpty && s.data.all u.isdigitChar

/-- Model of Python's `int()` on text that passed `str.isdigit`: succeeds
with the base-10 value of the digits iff every character is a decimal
digit, and raises `ValueError` (modelled as `none`) otherwise. -/
def pyInt (u : PyUnicode) (s : String) : Option Nat :=
  if s.data.all (fun c => (u.decimalVal c).isSome) then
    some (s.data.foldl (fun a c => a * 10 + (u.decimalVal c).getD 0) 0)
  else none

/-- Observable effect of `handle_text` on the delivery core: one score event
submitted via `send_or_queue`, only the usage reply, or a `ValueError`
raised out of the handler by `int()` (no event and no reply). -/
inductive TextAction where
  | submitScore (score : Nat)
  | usageReply
  | valueError
deriving DecidableEq

/-- Model of `handle_text` (bot.py 577-600) over Python's Unicode string
semantics: strip the message text; if it passes `isdigit()`, evaluate
`int()` on it — when `int()` raises (the stripped text contains an
`isdigit`-true character that is not a decimal digit) the exception
propagates out of the handler, producing neither an event nor a reply; a
value in 1..10 submits one score event with that value; every other case
falls through to the usage reply. -/
def handle_text (u : PyUnicode) (text : String) : TextAction :=
  let t := pyStripU u text
  if pyIsDigit u t then
    match pyInt u t with
    | none => TextAction.valueError
    | some score =>
      if 1 ≤ score ∧ score ≤ 10 then TextAction.submitScore score else TextAction.usageReply
  else TextAction.usageReply

/-- Concrete character tables transcribing Python's documented Unicode
semantics on the ranges the theorems below exercise: the `str.strip`
whitespace set (ASCII controls 9-13 and 28-31, space, NEL, NBSP, and the
Unicode space separators); `str.isdigit` true on the ASCII digits, the
Arabic-Indic digits U+0660-U+0669, and the superscript digits U+00B2,
U+00B3, U+00B9 (Numeric_Type=Digit, e.g. `'²'.isdigit()` is True); `int()`
defined exactly on the decimal digits with their decimal values (e.g.
`int('٥') = 5`) and raising `ValueError` on the superscripts (e.g.
`int('²')`).  Characters outside these ranges are classified as plain
text. -/
def pyUnicodeData : PyUnicode where
  isSpace c :=
    let n := c.toNat
    decide ((9 ≤ n ∧ n ≤ 13) ∨ (28 ≤ n ∧ n ≤ 32) ∨ n = 0x85 ∨ n = 0xa0 ∨ n = 0x1680
      ∨ (0x2000 ≤ n ∧ n ≤ 0x200a) ∨ n = 0x2028 ∨ n = 0x2029 ∨ n = 0x202f
      ∨ n = 0x205f ∨ n = 0x3000)
  isdigitChar c :=
    let n := c.toNat
    decide ((48 ≤ n ∧ n ≤ 57) ∨ (0x660 ≤ n ∧ n ≤ 0x669) ∨ n = 0xb2 ∨ n = 0xb3 ∨ n = 0xb9)
  decimalVal c :=
    let n := c.toNat
    if 48 ≤ n ∧ n ≤ 57 then some (n - 48)
    else if 0x660 ≤ n ∧ n ≤ 0x669 then some (n - 0x660)
    else none

/-- Observable effect of the `score:` branch of `handle_button` on the
delivery core. -/
inductive ButtonAction where
  | submitScore (score : Int)
  | rangeErrorReply
deriving DecidableEq

/-- The `score:` branch of `handle_button` (bot.py 552-574): `score` is the
`int()` of the callback-data suffix; outside 1..10 only an error reply is
sent, otherwise one score event with that value is submitted. -/
def handle_button_score (score : Int) : ButtonAction :=
  if 1 ≤ score ∧ score ≤ 10 then .submitScore score else .rangeErrorReply

/-- Concrete unary codec used to instantiate the theorems on concrete
inputs: event `n` is stored as the line of `n+1` letters `a`. -/
def natCodec : Codec Nat where
  dumps n := String.mk (List.replicate (n + 1) 'a')
  loads s := if s.data ≠ [] ∧ s.data.all (fun c => c = 'a') then some (s.data.length - 1) else none

/-! ### Helper lemmas -/

theorem natCodec_lawful : natCodec.Lawful := by
  intro e
  have hch : ¬ Char.isWhitespace 'a' = true := by decide
  have hdw : ∀ n : Nat, List.dropWhile Char.isWhitespace (List.replicate (n + 1) 'a') =
      List.replicate (n + 1) 'a' := by
    intro n
    rw [List.replicate_succ, List.dropWhile_cons_of_neg hch]
  refine ⟨?_, ?_, ?_⟩
  · show String.mk _ = _
    rw [show (natCodec.dumps e).data = List.replicate (e + 1) 'a' from rfl]
    rw [hdw, List.reverse_replicate, hdw, List.reverse_replicate]
    rfl
  · show List.replicate (e + 1) 'a' ≠ []
    simp
  · show natCodec.loads (String.mk (List.replicate (e + 1) 'a')) = some e
    have h1 : (String.mk (List.replicate (e + 1) 'a')).data = List.replicate (e + 1) 'a' := rfl
    have h2 : (List.replicate (e + 1) 'a').all (fun c => c = 'a') = true := by
      simp [List.all_eq_true]
    show (if _ ∧ _ then _ else _) = _
    rw [if_pos]
    · simp [h1]
    · refine ⟨by simp [h1], by rw [h1]; exact h2⟩

theorem readItems_nil {E : Type} (c : Codec E) : readItems c [] = [] := rfl

theorem readItems_append {E : Type} (c : Codec E) (l₁ l₂ : List String) :
    readItems c (l₁ ++ l₂) = readItems c l₁ ++ readItems c l₂ :=
  List.filterMap_append l₁ l₂ _

theorem readItems_dumps_cons {E : Type} {c : Codec E} (hc : c.Lawful) (e : E) (ls : List String) :
    readItems c (c.dumps e :: ls) = e :: readItems c ls := by
  obtain ⟨h1, h2, h3⟩ := hc e
  show List.filterMap _ _ = _
  rw [List.filterMap_cons]
  rw [h1, if_neg h2, h3]
  rfl

theorem readItems_map_dumps {E : Type} {c : Codec E} (hc : c.Lawful) (l : List E) :
    readItems c (l.map c.dumps) = l := by
  induction l with
  | nil => rfl
  | cons e l ih => rw [List.map_cons, readItems_dumps_cons hc, ih]

theorem pyIndex_cons_self {E : Type} [DecidableEq E] (x : E) (l : List E) :
    pyIndex x (x :: l) = 0 := by
  simp [pyIndex]

theorem pyIndex_append_of_not_mem {E : Type} [DecidableEq E] {x : E} {l₁ : List E}
    (h : x ∉ l₁) (l₂ : List E) : pyIndex x (l₁ ++ l₂) = l₁.length + pyIndex x l₂ := by
  induction l₁ with
  | nil => simp
  | cons a l₁ ih =>
    have hax : ¬ a = x := fun hh => h (hh ▸ List.mem_cons_self a l₁)
    have hx1 : x ∉ l₁ := fun hh => h (List.mem_cons_of_mem a hh)
    simp only [List.cons_append, pyIndex, if_neg hax, List.append_eq, ih hx1, List.length_cons]
    omega

theorem pyIndex_append_of_mem {E : Type} [DecidableEq E] {x : E} {l₁ : List E}
    (h : x ∈ l₁) (l₂ : List E) : pyIndex x (l₁ ++ l₂) = pyIndex x l₁ := by
  induction l₁ with
  | nil => cases h
  | cons a l₁ ih =>
    by_cases hax : a = x
    · simp only [List.cons_append, pyIndex, if_pos hax]
    · have hx1 : x ∈ l₁ := by
        rcases List.mem_cons.mp h with h' | h'
        · exact absurd h'.symm hax
        · exact h'
      simp only [List.cons_append, pyIndex, if_neg hax, List.append_eq, ih hx1]

theorem pyIndex_lt_length {E : Type} [DecidableEq E] {x : E} {l : List E} (h : x ∈ l) :
    pyIndex x l < l.length := by
  induction l with
  | nil => cases h
  | cons a l ih =>
    by_cases hax : a = x
    · simp [pyIndex, if_pos hax]
    · have hx1 : x ∈ l := by
        rcases List.mem_cons.mp h with h' | h'
        · exact absurd h'.symm hax
        · exact h'
      simp only [pyIndex, if_neg hax, List.length_cons]
      exact Nat.succ_lt_succ (ih hx1)

/-- Behaviour of the delivery loop under a deterministic per-event outcome
`f`: it sends exactly the maximal `f`-true prefix, attempts exactly that
prefix plus the first failing event (when present), and keeps exactly the
suffix starting at the first failing event. -/
theorem flushGo_det_spec {E : Type} [DecidableEq E] (f : E → Bool) :
    ∀ (l pre : List E), (∀ x ∈ pre, f x = true) →
      flushGo (fun _ e => f e) (pre ++ l) pre.length l =
        (pre.length + (l.takeWhile f).length,
         l.drop (l.takeWhile f).length,
         l.take ((l.takeWhile f).length + 1)) := by
  intro l
  induction l with
  | nil =>
    intro pre hpre
    simp [flushGo]
  | cons p rest ih =>
    intro pre hpre
    by_cases hp : f p = true
    · have hpre' : ∀ x ∈ pre ++ [p], f x = true := by
        intro x hx
        rcases List.mem_append.mp hx with h | h
        · exact hpre x h
        · rw [List.mem_singleton.mp h]; exact hp
      rw [show pre ++ p :: rest = (pre ++ [p]) ++ rest by simp]
      simp only [flushGo]
      rw [if_pos hp]
      rw [show pre.length + 1 = (pre ++ [p]).length by simp]
      rw [ih (pre ++ [p]) hpre']
      rw [List.takeWhile_cons_of_pos hp]
      simp only [List.length_cons, List.drop_succ_cons, List.take_succ_cons,
        List.length_append, List.length_nil, Prod.mk.injEq]
      refine ⟨by omega, ?_⟩
      trivial
    · have hp' : f p = false := by
        cases hfp : f p
        · rfl
        · exact absurd hfp hp
      have hnp : p ∉ pre := fun hmem => by rw [hpre p hmem] at hp'; cases hp'
      simp only [flushGo]
      rw [if_neg (by simp [hp'])]
      rw [pyIndex_append_of_not_mem hnp, pyIndex_cons_self]
      rw [List.takeWhile_cons_of_neg (by simp [hp'])]
      rw [show pre ++ p :: rest = (pre ++ [p]) ++ rest by simp]
      rw [List.drop_left' (show ((pre ++ [p]) : List E).length = pre.length + 0 + 1 by simp)]
      simp

/-- Count preservation of the delivery loop for an event value `e` on which
no attempt of the flush ever succeeds: the number of copies of `e` kept in
the remainder equals the number pending, even though the quirky
`items.index` slice may duplicate other already-delivered events. -/
theorem flushGo_count {E : Type} [DecidableEq E] (g : Nat → E → Bool) (e : E)
    (hg : ∀ i, g i e = false) :
    ∀ (l pre : List E) (i : Nat), e ∉ pre →
      List.count e (flushGo g (pre ++ l) i l).2.1 = List.count e l := by
  intro l
  induction l with
  | nil =>
    intro pre i _
    simp [flushGo]
  | cons p rest ih =>
    intro pre i hepre
    by_cases hgp : g i p = true
    · have hpe : p ≠ e := by
        intro h; rw [h, hg i] at hgp; cases hgp
      have he' : e ∉ pre ++ [p] := by
        intro hmem
        rcases List.mem_append.mp hmem with h | h
        · exact hepre h
        · exact hpe (List.mem_singleton.mp h).symm
      rw [show pre ++ p :: rest = (pre ++ [p]) ++ rest by simp]
      simp only [flushGo]
      rw [if_pos hgp]
      simp only []
      rw [ih (pre ++ [p]) (i + 1) he']
      rw [List.count_cons_of_ne (Ne.symm hpe)]
    · have hgp' : g i p = false := by
        cases hfp : g i p
        · rfl
        · exact absurd hfp hgp
      simp only [flushGo]
      rw [if_neg (by simp [hgp'])]
      by_cases hmem : p ∈ pre
      · have hpe : p ≠ e := fun h => hepre (h ▸ hmem)
        rw [pyIndex_append_of_mem hmem]
        have hlt : pyIndex p pre < pre.length := pyIndex_lt_length hmem
        rw [List.drop_append_of_le_length (by omega)]
        simp only []
        rw [List.count_cons_of_ne (Ne.symm hpe), List.count_append,
          List.count_cons_of_ne (Ne.symm hpe)]
        have h0 : List.count e (pre.drop (pyIndex p pre + 1)) = 0 :=
          List.count_eq_zero_of_not_mem (fun hh => hepre (List.drop_subset _ _ hh))
        rw [h0]
        omega
      · rw [pyIndex_append_of_not_mem hmem, pyIndex_cons_self]
        rw [show pre ++ p :: rest = (pre ++ [p]) ++ rest by simp]
        rw [List.drop_left' (show ((pre ++ [p]) : List E).length = pre.length + 0 + 1 by simp)]

/-- Full behaviour of `flush_queue_once` under a deterministic per-event
delivery outcome `f`, expressed against the parsed queue content. -/
theorem flush_once_det {E : Type} [DecidableEq E] {c : Codec E} (hc : c.Lawful)
    (f : E → Bool) (lines : List String) :
    (flush_queue_once c (fun _ e => f e) lines).sent
        = ((readItems c lines).takeWhile f).length
    ∧ (flush_queue_once c (fun _ e => f e) lines).left
        = (readItems c lines).length - ((readItems c lines).takeWhile f).length
    ∧ (flush_queue_once c (fun _ e => f e) lines).attempts
        = (readItems c lines).take (((readItems c lines).takeWhile f).length + 1)
    ∧ (flush_queue_once c (fun _ e => f e) lines).file
        = (if readItems c lines = [] then lines
           else ((readItems c lines).drop ((readItems c lines).takeWhile f).length).map c.dumps)
    ∧ readItems c (flush_queue_once c (fun _ e => f e) lines).file
        = (readItems c lines).drop ((readItems c lines).takeWhile f).length := by
  by_cases hemp : readItems c lines = []
  · simp [flush_queue_once, hemp]
  · have hspec := flushGo_det_spec f (readItems c lines) [] (by intro x hx; cases hx)
    simp only [List.nil_append, List.length_nil, Nat.zero_add] at hspec
    have hne : (readItems c lines).isEmpty = false := by
      cases hl : readItems c lines
      · exact absurd hl hemp
      · rfl
    simp only [flush_queue_once, hne, Bool.false_eq_true, if_false, hspec, if_neg hemp]
    refine ⟨by trivial, by simp, by trivial, by trivial, ?_⟩
    exact readItems_map_dumps hc _

/-- One `flush_queue_once` call never changes the number of pending copies of an
event value on which no delivery attempt of the call succeeds. -/
theorem flush_once_count {E : Type} [DecidableEq E] {c : Codec E} (hc : c.Lawful)
    (g : Nat → E → Bool) (e : E) (hg : ∀ i, g i e = false) (lines : List String) :
    List.count e (readItems c (flush_queue_once c g lines).file)
      = List.count e (readItems c lines) := by
  by_cases hemp : (readItems c lines).isEmpty
  · simp only [flush_queue_once, hemp, if_pos]
  · have hcount := flushGo_count g e hg (readItems c lines) [] 0 (by intro h; cases h)
    simp only [List.nil_append] at hcount
    simp only [flush_queue_once, hemp, Bool.false_eq_true, if_false]
    rw [readItems_map_dumps hc, hcount]

/-- Dropping the maximal `f`-true prefix leaves a list whose own maximal
`f`-true prefix is empty (its head, when present, fails `f`). -/
theorem takeWhile_self_drop {α : Type} (f : α → Bool) :
    ∀ l : List α, ((l.drop (l.takeWhile f).length).takeWhile f) = [] := by
  intro l
  induction l with
  | nil => rfl
  | cons a l ih =>
    by_cases h : f a = true
    · rw [List.takeWhile_cons_of_pos h]
      simp only [List.length_cons, List.drop_succ_cons]
      exact ih
    · rw [List.takeWhile_cons_of_neg h]
      simp only [List.length_nil, List.drop_zero]
      exact List.takeWhile_cons_of_neg h

/-- One deterministic flush reaches a fixed point of the queue file: a
second flush with the same outcomes rewrites the identical content. -/
theorem flushFile_fixed {E : Type} [DecidableEq E] {c : Codec E} (hc : c.Lawful)
    (f : E → Bool) (lines : List String) :
    flushFile c f (flushFile c f lines) = flushFile c f lines := by
  simp only [flushFile]
  obtain ⟨-, -, -, h4, h5⟩ := flush_once_det hc f lines
  obtain ⟨-, -, -, h4', -⟩ := flush_once_det hc f (flush_queue_once c (fun _ e => f e) lines).file
  by_cases hemp : readItems c (flush_queue_once c (fun _ e => f e) lines).file = []
  · rw [h4', if_pos hemp]
  · rw [h4', if_neg hemp, h5]
    have hitems : readItems c lines ≠ [] := by
      intro h0
      apply hemp
      rw [h5, h0]
      simp
    rw [takeWhile_self_drop f (readItems c lines), List.length_nil, List.drop_zero, h4,
      if_neg hitems]

/-! ### Claim theorems -/

/-- C1: for every queue-file content and every deterministic per-event
delivery outcome `f`, `flush_queue_once` attempts the pending events
strictly in FIFO order (exactly the successful prefix followed by the first
failing event, when one exists), stops at the first event whose delivery is
not Success, and rewrites the file so that it parses to exactly the
undelivered remainder — the failing event and every event after it, in
original order, with no duplicated and no missing events — including when
the pending sequence contains two equal events. -/
theorem c1_flush_fifo_remainder {E : Type} [DecidableEq E] (c : Codec E) (hc : c.Lawful)
    (f : E → Bool) (lines : List String) :
    (flush_queue_once c (fun _ e => f e) lines).sent
        = ((readItems c lines).takeWhile f).length
    ∧ (flush_queue_once c (fun _ e => f e) lines).left
        = (readItems c lines).length - ((readItems c lines).takeWhile f).length
    ∧ (flush_queue_once c (fun _ e => f e) lines).attempts
        = (readItems c lines).take (((readItems c lines).takeWhile f).length + 1)
    ∧ readItems c (flush_queue_once c (fun _ e => f e) lines).file
        = (readItems c lines).drop ((readItems c lines).takeWhile f).length := by
  obtain ⟨h1, h2, h3, -, h5⟩ := flush_once_det hc f lines
  exact ⟨h1, h2, h3, h5⟩

theorem c1_flush_fifo_remainder_witness :
    (flush_queue_once natCodec (fun _ e => e != 1)
        [natCodec.dumps 2, natCodec.dumps 2, natCodec.dumps 1, natCodec.dumps 3]).sent = 2
    ∧ readItems natCodec (flush_queue_once natCodec (fun _ e => e != 1)
        [natCodec.dumps 2, natCodec.dumps 2, natCodec.dumps 1, natCodec.dumps 3]).file
        = [1, 3] := by
  have h := c1_flush_fifo_remainder natCodec natCodec_lawful (fun e => e != 1)
    [natCodec.dumps 2, natCodec.dumps 2, natCodec.dumps 1, natCodec.dumps 3]
  exact ⟨h.1.trans (by decide), h.2.2.2.trans (by decide)⟩

/-- C2: across every sequence of `enqueue_event` and `flush_queue_once`
operations (each flush driven by an arbitrary per-attempt outcome oracle),
an event value for which no delivery attempt ever returns Success is never
removed from the queue store: its multiplicity in the parsed store after the
trace equals its initial multiplicity plus the number of times it was
appended — at-least-once delivery. -/
theorem c2_at_least_once {E : Type} [DecidableEq E] (c : Codec E) (hc : c.Lawful)
    (ops : List (QOp E)) (file0 : List String) (e : E)
    (hnever : ∀ g, QOp.flush g ∈ ops → ∀ i, g i e = false) :
    List.count e (readItems c (execOps c ops file0))
      = List.count e (readItems c file0) + appendCount e ops := by
  revert hnever
  induction ops generalizing file0 with
  | nil =>
    intro _
    simp [execOps, appendCount]
  | cons op ops ih =>
    intro hnever
    cases op with
    | append a =>
      have h' : ∀ g, QOp.flush g ∈ ops → ∀ i, g i e = false :=
        fun g hg => hnever g (List.mem_cons_of_mem _ hg)
      show List.count e (readItems c (execOps c ops (enqueue_event c a file0))) = _
      rw [ih (enqueue_event c a file0) h']
      show List.count e (readItems c (file0 ++ [c.dumps a])) + _ = _
      rw [readItems_append, List.count_append]
      have hone : readItems c [c.dumps a] = [a] := readItems_dumps_cons hc a []
      rw [hone]
      show _ + List.count e [a] + _ = _ + ((if a = e then 1 else 0) + _)
      by_cases hae : a = e
      · rw [hae, if_pos rfl, List.count_singleton_self]
        omega
      · rw [if_neg hae, List.count_singleton, if_neg (by simpa using hae)]
        omega
    | flush g =>
      have h' : ∀ g', QOp.flush g' ∈ ops → ∀ i, g' i e = false :=
        fun g' hg' => hnever g' (List.mem_cons_of_mem _ hg')
      have hgme : ∀ i, g i e = false := hnever g (List.mem_cons_self _ _)
      show List.count e (readItems c (execOps c ops (flush_queue_once c g file0).file)) = _
      rw [ih _ h', flush_once_count hc g e hgme]
      rfl

theorem c2_at_least_once_witness :
    List.count 5 (readItems natCodec (execOps natCodec
        [QOp.append 5, QOp.flush (fun _ _ => false), QOp.append 5] [])) = 2 := by
  have h := c2_at_least_once natCodec natCodec_lawful
      [QOp.append 5, QOp.flush (fun _ _ => false), QOp.append 5] [] 5 ?_
  · exact h.trans (by decide)
  · intro g hg i
    rcases List.mem_cons.mp hg with hh | hg
    · simp at hh
    rcases List.mem_cons.mp hg with hh | hg
    · injection hh with hh2
      rw [hh2]
    rcases List.mem_cons.mp hg with hh | hg
    · simp at hh
    · cases hg

/-- C3: for every event, `send_or_queue` first calls `flush_queue_once`,
then makes exactly one direct delivery attempt of the event; when that
outcome is Success it calls `flush_queue_once` a second time and returns
ok=true/queued=false; for every non-Success outcome it appends the event to
the queue store and returns ok=false/queued=true, so the event is then
present at the tail of the parsed store — never dropped. -/
theorem c3_send_or_queue_policy {E : Type} [DecidableEq E] (c : Codec E) (hc : c.Lawful)
    (g1 g2 : Nat → E → Bool) (direct : Bool) (ev : E) (file : List String) :
    (direct = true →
      send_or_queue c g1 g2 direct ev file =
        ⟨true, false,
         (flush_queue_once c g1 file).attempts ++ [ev]
           ++ (flush_queue_once c g2 (flush_queue_once c g1 file).file).attempts,
         (flush_queue_once c g2 (flush_queue_once c g1 file).file).file⟩)
    ∧ (direct = false →
      send_or_queue c g1 g2 direct ev file =
        ⟨false, true, (flush_queue_once c g1 file).attempts ++ [ev],
         (flush_queue_once c g1 file).file ++ [c.dumps ev]⟩
      ∧ readItems c (send_or_queue c g1 g2 direct ev file).file
          = readItems c (flush_queue_once c g1 file).file ++ [ev]) := by
  constructor
  · intro h
    rw [h]
    rfl
  · intro h
    rw [h]
    refine ⟨rfl, ?_⟩
    show readItems c ((flush_queue_once c g1 file).file ++ [c.dumps ev]) = _
    rw [readItems_append, readItems_dumps_cons hc ev []]
    rfl

theorem c3_send_or_queue_policy_witness :
    readItems natCodec (send_or_queue natCodec (fun _ _ => false) (fun _ _ => false)
        false 7 ([] : List String)).file = [7] := by
  have h := (c3_send_or_queue_policy natCodec natCodec_lawful
      (fun _ _ => false) (fun _ _ => false) false 7 []).2 rfl
  exact h.2.trans (by decide)

/-- C4 counterexample: a non-2xx response — status 500, even with a
parseable body claiming ok:true — produces exactly the same outcome value
as a transport-level failure, because `raise_for_status` raises inside the
`try` and is caught by the `except requests.RequestException` arm; the
outcome is not `Rejected` and is not distinguishable from the
transport-failure outcome. -/
theorem c4_counterexample :
    post_to_sheets (HttpResult.response 500 (some ⟨true, none⟩))
      = post_to_sheets HttpResult.transportFailure := by
  rfl

/-- C4 amended: `post_to_sheets` maps a transport-level failure to the
outcome `{ok:false, error:"network"}`; every HTTP status in 400..599 (the
statuses `raise_for_status` raises on) yields that same network outcome —
not a distinguishable rejection; for the remaining statuses an unparseable
response body yields `{ok:false, error:"bad_json_response"}`, which is
distinguishable from the transport-failure outcome, and a parseable body is
returned as-is. -/
theorem c4_outcome_classification :
    post_to_sheets HttpResult.transportFailure = ⟨false, some "network"⟩
    ∧ (∀ s b, 400 ≤ s → s < 600 →
        post_to_sheets (HttpResult.response s b) = ⟨false, some "network"⟩)
    ∧ (∀ s, ¬(400 ≤ s ∧ s < 600) →
        post_to_sheets (HttpResult.response s none) = ⟨false, some "bad_json_response"⟩
        ∧ post_to_sheets (HttpResult.response s none)
            ≠ post_to_sheets HttpResult.transportFailure)
    ∧ (∀ s j, ¬(400 ≤ s ∧ s < 600) →
        post_to_sheets (HttpResult.response s (some j)) = j) := by
  refine ⟨rfl, ?_, ?_, ?_⟩
  · intro s b h1 h2
    show (if 400 ≤ s ∧ s < 600 then _ else _) = _
    rw [if_pos ⟨h1, h2⟩]
  · intro s h
    have hbody : post_to_sheets (HttpResult.response s none)
        = ⟨false, some "bad_json_response"⟩ := by
      show (if 400 ≤ s ∧ s < 600 then _ else _) = _
      rw [if_neg h]
    refine ⟨hbody, ?_⟩
    rw [hbody]
    decide
  · intro s j h
    show (if 400 ≤ s ∧ s < 600 then _ else _) = _
    rw [if_neg h]

theorem c4_outcome_classification_witness :
    post_to_sheets (HttpResult.response 404 (some ⟨true, none⟩)) = ⟨false, some "network"⟩
    ∧ post_to_sheets (HttpResult.response 200 none)
        ≠ post_to_sheets HttpResult.transportFailure :=
  ⟨c4_outcome_classification.2.1 404 (some ⟨true, none⟩) (by decide) (by decide),
   (c4_outcome_classification.2.2.1 200 (by decide)).2⟩

/-- C5: when the queue store is empty — nothing parses from the queue file,
in particular when the file is empty — `flush_queue_once` returns sent=0
and left=0, makes no delivery attempt, and leaves the queue file
unchanged. -/
theorem c5_empty_flush_noop {E : Type} [DecidableEq E] (c : Codec E) (g : Nat → E → Bool)
    (lines : List String) (h : readItems c lines = []) :
    flush_queue_once c g lines = ⟨0, 0, [], lines⟩ := by
  simp [flush_queue_once, h]

theorem c5_empty_flush_noop_witness :
    flush_queue_once natCodec (fun _ _ => true) ([] : List String)
      = ⟨0, 0, [], []⟩ :=
  c5_empty_flush_noop natCodec (fun _ _ => true) [] rfl

/-- C6: reading the store (the shared parse phase of `flush_queue_once` and
`queue_status`) on a file of N valid event lines plus one blank or
malformed line in any position yields exactly the N valid events in their
original order — the read never fails because of the corrupt line, and
`queue_status` counts exactly those events. -/
theorem c6_corruption_tolerance {E : Type} (c : Codec E) (ts : E → Option String)
    (ls1 ls2 : List String) (evs1 evs2 : List E) (bad : String)
    (h1 : List.Forall₂ (fun l e => (pyStrip l).data ≠ [] ∧ c.loads (pyStrip l) = some e) ls1 evs1)
    (h2 : List.Forall₂ (fun l e => (pyStrip l).data ≠ [] ∧ c.loads (pyStrip l) = some e) ls2 evs2)
    (hbad : (pyStrip bad).data = [] ∨ c.loads (pyStrip bad) = none) :
    readItems c (ls1 ++ bad :: ls2) = evs1 ++ evs2
    ∧ (queue_status c ts (ls1 ++ bad :: ls2)).1 = evs1.length + evs2.length := by
  have key : ∀ (ls : List String) (evs : List E),
      List.Forall₂ (fun l e => (pyStrip l).data ≠ [] ∧ c.loads (pyStrip l) = some e) ls evs →
      readItems c ls = evs := by
    intro ls evs h
    induction h with
    | nil => rfl
    | cons hpair hrest ihh =>
      show List.filterMap _ (_ :: _) = _
      rw [List.filterMap_cons, if_neg hpair.1, hpair.2]
      exact congrArg (fun t => _ :: t) ihh
  have hbadskip : readItems c (bad :: ls2) = readItems c ls2 := by
    show List.filterMap _ _ = _
    rw [List.filterMap_cons]
    rcases hbad with hb | hb
    · rw [if_pos hb]
      rfl
    · by_cases hb2 : (pyStrip bad).data = []
      · rw [if_pos hb2]
        rfl
      · rw [if_neg hb2, hb]
        rfl
  have hread : readItems c (ls1 ++ bad :: ls2) = evs1 ++ evs2 := by
    rw [readItems_append, hbadskip, key ls1 evs1 h1, key ls2 evs2 h2]
  refine ⟨hread, ?_⟩
  show (readItems c (ls1 ++ bad :: ls2)).length = _
  rw [hread, List.length_append]

theorem c6_corruption_tolerance_witness :
    readItems natCodec [natCodec.dumps 1, String.mk ['b'], natCodec.dumps 2] = [1, 2]
    ∧ (queue_status natCodec (fun _ => none)
        [natCodec.dumps 1, String.mk ['b'], natCodec.dumps 2]).1 = 2 := by
  have h := c6_corruption_tolerance natCodec (fun _ => none)
      [natCodec.dumps 1] [natCodec.dumps 2] [1] [2] (String.mk ['b'])
      (List.Forall₂.cons (by decide) List.Forall₂.nil)
      (List.Forall₂.cons (by decide) List.Forall₂.nil)
      (by decide)
  exact ⟨h.1, h.2⟩

/-- C7: for a fixed queue content and a deterministic per-event delivery
outcome, with no new appends between calls, repeated `flush_queue_once`
invocation converges after the first call: every subsequent call leaves the
queue file exactly as the first call left it, and that stable content is
either an empty queue or a non-empty remainder blocked on the same failing
head event. -/
theorem c7_flush_idempotent {E : Type} [DecidableEq E] (c : Codec E) (hc : c.Lawful)
    (f : E → Bool) (lines : List String) :
    (∀ n : Nat, flushIterate c f (n + 1) lines = flushFile c f lines)
    ∧ (readItems c (flushFile c f lines) = []
       ∨ ∃ h t, readItems c (flushFile c f lines) = h :: t ∧ f h = false) := by
  constructor
  · intro n
    induction n generalizing lines with
    | zero => rfl
    | succ n ihn =>
      show flushIterate c f (n + 1) (flushFile c f lines) = _
      rw [ihn (flushFile c f lines), flushFile_fixed hc]
  · obtain ⟨-, -, -, -, h5⟩ := flush_once_det hc f lines
    simp only [flushFile]
    rw [h5]
    cases hrem : (readItems c lines).drop ((readItems c lines).takeWhile f).length with
    | nil => exact Or.inl rfl
    | cons h t =>
      refine Or.inr ⟨h, t, rfl, ?_⟩
      have htw := takeWhile_self_drop f (readItems c lines)
      rw [hrem] at htw
      by_cases hfh : f h = true
      · rw [List.takeWhile_cons_of_pos hfh] at htw
        cases htw
      · cases hf : f h
        · rfl
        · exact absurd hf hfh

theorem c7_flush_idempotent_witness :
    flushIterate natCodec (fun e => e != 1) 3 [natCodec.dumps 2, natCodec.dumps 1]
      = flushFile natCodec (fun e => e != 1) [natCodec.dumps 2, natCodec.dumps 1]
    ∧ flushFile natCodec (fun e => e != 1) [natCodec.dumps 2, natCodec.dumps 1]
      = [natCodec.dumps 1] :=
  ⟨(c7_flush_idempotent natCodec natCodec_lawful (fun e => e != 1)
      [natCodec.dumps 2, natCodec.dumps 1]).1 2,
   by decide⟩

/-- C8: the background flush job runs on a fixed 300-time-unit period
independent of user traffic, and `flush_job` always returns normally: a
successful flush produces at most an info log entry, while every exception
raised inside one invocation is logged and swallowed, never propagated, so
the schedule continues unconditionally. -/
theorem c8_flush_job_never_propagates :
    flushJobInterval = 300
    ∧ (∀ r : Except String (Nat × Nat), ∃ log, flush_job r = Except.ok log)
    ∧ (∀ m, flush_job (Except.error m) = Except.ok (some (JobLogEntry.failedException m))) := by
  refine ⟨rfl, ?_, fun m => rfl⟩
  intro r
  cases r with
  | ok st => exact ⟨_, rfl⟩
  | error m => exact ⟨_, rfl⟩

/-- C9 counterexample: the free-text message consisting of the superscript
two passes `str.isdigit`, but `int()` raises `ValueError` on it, so
`handle_text` raises: no score event is submitted and — contrary to the
claim that any non-score text produces only a usage reply — no usage reply
is produced either. -/
theorem c9_counterexample :
    handle_text pyUnicodeData (String.mk ['\u00b2']) = TextAction.valueError
    ∧ handle_text pyUnicodeData (String.mk ['\u00b2']) ≠ TextAction.usageReply := by
  decide

/-- C9 amended: over any per-character Unicode semantics (hence Python's
actual tables), a free-text message submits a score event iff the stripped
text passes `isdigit()` and `int()` evaluates it to a value between 1 and
10 inclusive, and the submitted score is exactly that value; when the
stripped text passes `isdigit()` but `int()` raises `ValueError` on it,
`handle_text` propagates the exception — neither an event nor the usage
reply; every other text produces only the usage reply; and every score
event submitted from free text or from a score button carries a score in
1..10. -/
theorem c9_score_validation_amended :
    (∀ (u : PyUnicode) (s : String),
      (∃ k, handle_text u s = TextAction.submitScore k) ↔
        (pyIsDigit u (pyStripU u s) = true
         ∧ ∃ v, pyInt u (pyStripU u s) = some v ∧ 1 ≤ v ∧ v ≤ 10))
    ∧ (∀ (u : PyUnicode) (s : String) (k : Nat),
        handle_text u s = TextAction.submitScore k →
        pyInt u (pyStripU u s) = some k ∧ 1 ≤ k ∧ k ≤ 10)
    ∧ (∀ (u : PyUnicode) (s : String),
        handle_text u s = TextAction.valueError ↔
          (pyIsDigit u (pyStripU u s) = true ∧ pyInt u (pyStripU u s) = none))
    ∧ (∀ (u : PyUnicode) (s : String),
        handle_text u s = TextAction.usageReply ↔
          (¬ pyIsDigit u (pyStripU u s) = true
           ∨ ∃ v, pyInt u (pyStripU u s) = some v ∧ ¬(1 ≤ v ∧ v ≤ 10)))
    ∧ (∀ (n : Int) (k : Int), handle_button_score n = ButtonAction.submitScore k →
        1 ≤ k ∧ k ≤ 10) := by
  have L4 : ∀ (u : PyUnicode) (s : String), ¬ pyIsDigit u (pyStripU u s) = true →
      handle_text u s = TextAction.usageReply := by
    intro u s hd
    show (if pyIsDigit u (pyStripU u s) = true then _ else _) = _
    rw [if_neg hd]
  have L2 : ∀ (u : PyUnicode) (s : String), pyIsDigit u (pyStripU u s) = true →
      pyInt u (pyStripU u s) = none → handle_text u s = TextAction.valueError := by
    intro u s hd hn
    show (if pyIsDigit u (pyStripU u s) = true then _ else _) = _
    rw [if_pos hd, hn]
  have L1 : ∀ (u : PyUnicode) (s : String) (v : Nat), pyIsDigit u (pyStripU u s) = true →
      pyInt u (pyStripU u s) = some v → 1 ≤ v ∧ v ≤ 10 →
      handle_text u s = TextAction.submitScore v := by
    intro u s v hd hs hr
    show (if pyIsDigit u (pyStripU u s) = true then _ else _) = _
    rw [if_pos hd, hs]
    exact if_pos hr
  have L3 : ∀ (u : PyUnicode) (s : String) (v : Nat), pyIsDigit u (pyStripU u s) = true →
      pyInt u (pyStripU u s) = some v → ¬(1 ≤ v ∧ v ≤ 10) →
      handle_text u s = TextAction.usageReply := by
    intro u s v hd hs hr
    show (if pyIsDigit u (pyStripU u s) = true then _ else _) = _
    rw [if_pos hd, hs]
    exact if_neg hr
  refine ⟨?_, ?_, ?_, ?_, ?_⟩
  · intro u s
    constructor
    · rintro ⟨k, hk⟩
      by_cases hd : pyIsDigit u (pyStripU u s) = true
      · cases hint : pyInt u (pyStripU u s) with
        | none =>
          rw [L2 u s hd hint] at hk
          cases hk
        | some v =>
          by_cases hr : 1 ≤ v ∧ v ≤ 10
          · exact ⟨hd, v, rfl, hr.1, hr.2⟩
          · rw [L3 u s v hd hint hr] at hk
            cases hk
      · rw [L4 u s hd] at hk
        cases hk
    · rintro ⟨hd, v, hv, hr1, hr2⟩
      exact ⟨v, L1 u s v hd hv ⟨hr1, hr2⟩⟩
  · intro u s k hk
    by_cases hd : pyIsDigit u (pyStripU u s) = true
    · cases hint : pyInt u (pyStripU u s) with
      | none =>
        rw [L2 u s hd hint] at hk
        cases hk
      | some v =>
        by_cases hr : 1 ≤ v ∧ v ≤ 10
        · rw [L1 u s v hd hint hr] at hk
          injection hk with hvk
          subst hvk
          exact ⟨rfl, hr.1, hr.2⟩
        · rw [L3 u s v hd hint hr] at hk
          cases hk
    · rw [L4 u s hd] at hk
      cases hk
  · intro u s
    constructor
    · intro hk
      by_cases hd : pyIsDigit u (pyStripU u s) = true
      · cases hint : pyInt u (pyStripU u s) with
        | none => exact ⟨hd, rfl⟩
        | some v =>
          by_cases hr : 1 ≤ v ∧ v ≤ 10
          · rw [L1 u s v hd hint hr] at hk
            cases hk
          · rw [L3 u s v hd hint hr] at hk
            cases hk
      · rw [L4 u s hd] at hk
        cases hk
    · rintro ⟨hd, hn⟩
      exact L2 u s hd hn
  · intro u s
    constructor
    · intro hk
      by_cases hd : pyIsDigit u (pyStripU u s) = true
      · cases hint : pyInt u (pyStripU u s) with
        | none =>
          rw [L2 u s hd hint] at hk
          cases hk
        | some v =>
          by_cases hr : 1 ≤ v ∧ v ≤ 10
          · rw [L1 u s v hd hint hr] at hk
            cases hk
          · exact Or.inr ⟨v, rfl, hr⟩
      · exact Or.inl hd
    · intro h
      rcases h with hd | ⟨v, hv, hr⟩
      · exact L4 u s hd
      · by_cases hd : pyIsDigit u (pyStripU u s) = true
        · exact L3 u s v hd hv hr
        · exact L4 u s hd
  · intro n k hk
    by_cases hcond : 1 ≤ n ∧ n ≤ 10
    · have hb : handle_button_score n = ButtonAction.submitScore n := by
        show (if 1 ≤ n ∧ n ≤ 10 then _ else _) = _
        rw [if_pos hcond]
      rw [hb] at hk
      injection hk with hkk
      exact ⟨hkk ▸ hcond.1, hkk ▸ hcond.2⟩
    · have hb : handle_button_score n = ButtonAction.rangeErrorReply := by
        show (if 1 ≤ n ∧ n ≤ 10 then _ else _) = _
        rw [if_neg hcond]
      rw [hb] at hk
      cases hk

theorem c9_score_validation_amended_witness :
    (pyInt pyUnicodeData (pyStripU pyUnicodeData (String.mk ['\u0665'])) = some 5
      ∧ 1 ≤ 5 ∧ 5 ≤ 10)
    ∧ (pyInt pyUnicodeData (pyStripU pyUnicodeData (String.mk [Char.ofNat 12, '5'])) = some 5
      ∧ 1 ≤ 5 ∧ 5 ≤ 10)
    ∧ handle_text pyUnicodeData (String.mk ['a', 'b']) = TextAction.usageReply
    ∧ (1 ≤ (5 : Int) ∧ (5 : Int) ≤ 10) :=
  ⟨c9_score_validation_amended.2.1 pyUnicodeData (String.mk ['\u0665']) 5 (by decide),
   c9_score_validation_amended.2.1 pyUnicodeData (String.mk [Char.ofNat 12, '5']) 5 (by decide),
   (c9_score_validation_amended.2.2.2.1 pyUnicodeData (String.mk ['a', 'b'])).mpr
     (Or.inl (by decide)),
   c9_score_validation_amended.2.2.2.2 5 5 (by decide)⟩

/-- C10 (implicit): whenever at least one line of the queue file parses,
`flush_queue_once` rewrites the file purely from parsed events — every line
of the new file is the serialization of an event, hence non-blank and
parseable, so all blank and malformed lines are permanently deleted; when
no line parses (empty file, or only blank/malformed lines), the file is
left byte-for-byte unchanged, so malformed content is preserved in that
case. -/
theorem c10_rewrite_drops_garbage {E : Type} [DecidableEq E] (c : Codec E) (hc : c.Lawful)
    (g : Nat → E → Bool) (lines : List String) :
    (readItems c lines = [] → (flush_queue_once c g lines).file = lines)
    ∧ (readItems c lines ≠ [] →
        ∃ evs : List E, (flush_queue_once c g lines).file = evs.map c.dumps
        ∧ ∀ l ∈ (flush_queue_once c g lines).file,
            (pyStrip l).data ≠ [] ∧ ∃ e, c.loads (pyStrip l) = some e) := by
  constructor
  · intro h
    simp [flush_queue_once, h]
  · intro h
    have hne : (readItems c lines).isEmpty = false := by
      cases hl : readItems c lines
      · exact absurd hl h
      · rfl
    have hfile : (flush_queue_once c g lines).file
        = (flushGo g (readItems c lines) 0 (readItems c lines)).2.1.map c.dumps := by
      simp [flush_queue_once, hne]
    refine ⟨(flushGo g (readItems c lines) 0 (readItems c lines)).2.1, hfile, ?_⟩
    intro l hl
    rw [hfile] at hl
    rcases List.mem_map.mp hl with ⟨e, -, rfl⟩
    obtain ⟨hp1, hp2, hp3⟩ := hc e
    rw [hp1]
    exact ⟨hp2, e, hp3⟩

theorem c10_rewrite_drops_garbage_witness :
    ∃ evs : List Nat,
      (flush_queue_once natCodec (fun _ _ => false)
          [String.mk ['b'], natCodec.dumps 1, String.mk []]).file = evs.map natCodec.dumps
      ∧ ∀ l ∈ (flush_queue_once natCodec (fun _ _ => false)
          [String.mk ['b'], natCodec.dumps 1, String.mk []]).file,
          (pyStrip l).data ≠ [] ∧ ∃ e, natCodec.loads (pyStrip l) = some e :=
  (c10_rewrite_drops_garbage natCodec natCodec_lawful (fun _ _ => false)
      [String.mk ['b'], natCodec.dumps 1, String.mk []]).2 (by decide)

end BrownBot
